import Mathlib

/-!
# Verification of the vans-pricing core (shallow embedding)

This file embeds the core of the clinic-pricing repository in Lean 4:

* `src/utils/pricing.js` — unit-price / discount arithmetic (`roundPrice`,
  `calcDiscountRate`, `calcCompetitorAdvantage`, `calcUnitPrice`,
  `calcTotalQuantity`, `computeItemRows`);
* `validation.js` — the Monotonic Discount Rule validator
  (`validateMonotonic`);
* `packagePricing.js` — the Korean price-token parser, the bulk text
  parser (simple and enhanced grammars), the procedure/branch matchers
  and the package summary calculator.

Modelling conventions:

* JavaScript numbers are modelled as exact rationals `ℚ`; floating-point
  representation error is outside the scope of this development (all inputs
  handled here are exactly representable).  A number that may be `NaN`
  (the price parser can produce one) is modelled as `JsNum := Option ℚ`
  with `none` standing for `NaN`.
* The standard `Rat` operations of the library are irreducible, which
  blocks evaluation by `decide`; the embedding therefore computes with
  executable twins `qAdd`, `qSub`, `qMul`, `qDiv`, … that are proved equal
  to the standard operations (`qAdd_eq`, …), so that general theorems can
  be stated and proved over ordinary arithmetic.
* `Math.round x` is `⌊x + 1/2⌋` (JavaScript rounds half toward +∞).
* Regexes of the source are embedded as explicit scanning functions over
  `List Char`.  Each scanner reproduces the leftmost-match / greedy
  semantics of the concrete regex it replaces; where regex backtracking
  can change the match, the case analysis is spelled out at the
  definition.  The JS character class `\d` is exactly `[0-9]`; `\s` is
  modelled by its ASCII members (the Unicode space characters it also
  accepts do not occur in the inputs considered here).
* `Date.now()`-based `id` fields are impure and are omitted from the
  model (the spec itself requires them to be isolated from the core).
-/

/-! ## Executable rational arithmetic -/

/-- Executable addition on `ℚ` (`Rat.add` is irreducible). -/
def qAdd (a b : ℚ) : ℚ := mkRat (a.num * b.den + b.num * a.den) (a.den * b.den)

/-- Executable subtraction on `ℚ`. -/
def qSub (a b : ℚ) : ℚ := mkRat (a.num * b.den - b.num * a.den) (a.den * b.den)

/-- Executable multiplication on `ℚ`. -/
def qMul (a b : ℚ) : ℚ := mkRat (a.num * b.num) (a.den * b.den)

/-- Executable inverse on `ℚ` (`(0 : ℚ)⁻¹ = 0`). -/
def qInv (b : ℚ) : ℚ :=
  if b.num < 0 then mkRat (-(b.den : ℤ)) b.num.natAbs
  else mkRat (b.den : ℤ) b.num.natAbs

/-- Executable division on `ℚ` (division by zero gives 0 as usual). -/
def qDiv (a b : ℚ) : ℚ := qMul a (qInv b)

/-- Executable integer-to-rational embedding. -/
def qOfInt (n : ℤ) : ℚ := mkRat n 1

/-- Executable natural-to-rational embedding. -/
def qOfNat (n : ℕ) : ℚ := mkRat (n : ℤ) 1

theorem qAdd_eq (a b : ℚ) : qAdd a b = a + b := by
  rw [qAdd, Rat.mkRat_eq_div]
  have ha : (a.den : ℚ) ≠ 0 := by exact_mod_cast a.den_nz
  have hb : (b.den : ℚ) ≠ 0 := by exact_mod_cast b.den_nz
  conv_rhs => rw [← Rat.num_div_den a, ← Rat.num_div_den b]
  rw [div_add_div _ _ ha hb]
  push_cast
  ring_nf

theorem qSub_eq (a b : ℚ) : qSub a b = a - b := by
  rw [qSub, Rat.mkRat_eq_div]
  have ha : (a.den : ℚ) ≠ 0 := by exact_mod_cast a.den_nz
  have hb : (b.den : ℚ) ≠ 0 := by exact_mod_cast b.den_nz
  conv_rhs => rw [← Rat.num_div_den a, ← Rat.num_div_den b]
  rw [div_sub_div _ _ ha hb]
  push_cast
  ring_nf

theorem qMul_eq (a b : ℚ) : qMul a b = a * b := by
  rw [qMul, Rat.mkRat_eq_div]
  conv_rhs => rw [← Rat.num_div_den a, ← Rat.num_div_den b]
  rw [div_mul_div_comm]
  push_cast
  ring_nf

theorem qInv_eq (b : ℚ) : qInv b = b⁻¹ := by
  rw [qInv, Rat.inv_def']
  rcases lt_trichotomy b.num 0 with h | h | h
  · simp only [if_pos h]
    rw [Rat.mkRat_eq_div, Rat.divInt_eq_div, Int.cast_natAbs]
    have hq : ((b.num : ℚ)) < 0 := by exact_mod_cast h
    push_cast
    rw [abs_of_nonpos (le_of_lt hq), neg_div_neg_eq]
  · simp only [if_neg (by omega : ¬ b.num < 0), h]
    norm_num
  · simp only [if_neg (by omega : ¬ b.num < 0)]
    rw [Rat.mkRat_eq_div, Rat.divInt_eq_div]
    have hh : ((b.num.natAbs : ℕ) : ℚ) = ((b.num : ℤ) : ℚ) := by
      rw [Int.cast_natAbs]
      exact_mod_cast abs_of_nonneg (by omega : (0:ℤ) ≤ b.num)
    rw [hh]

theorem qDiv_eq (a b : ℚ) : qDiv a b = a / b := by
  rw [qDiv, qMul_eq, qInv_eq, div_eq_mul_inv]

theorem qOfInt_eq (n : ℤ) : qOfInt n = (n : ℚ) := by
  rw [qOfInt, Rat.mkRat_eq_div]; norm_num

theorem qOfNat_eq (n : ℕ) : qOfNat n = (n : ℚ) := by
  rw [qOfNat, Rat.mkRat_eq_div]; norm_num

/-! ## JavaScript number helpers -/

/-- A JavaScript number: `none` models `NaN`, `some q` an ordinary value. -/
abbrev JsNum := Option ℚ

/-- `Math.round` on an ordinary number: JS rounds half toward +∞,
i.e. `⌊q + 1/2⌋` (written through the executable `Rat.floor`). -/
def jsRound (q : ℚ) : ℤ := (qAdd q (mkRat 1 2)).floor

/-- `jsRound` agrees with the mathematical floor of `q + 1/2`. -/
theorem jsRound_eq_floor (q : ℚ) : jsRound q = ⌊q + 1/2⌋ := by
  rw [jsRound, qAdd_eq]
  have h : (mkRat 1 2 : ℚ) = 1/2 := by rw [Rat.mkRat_eq_div]; norm_num
  rw [h, (Rat.floor_def' (q + 1/2)).trans Rat.floor_def.symm]

/-- JS truthiness of a number: `NaN` and `0` are falsy. -/
def JsNum.truthy : JsNum → Bool
  | none => false
  | some q => q != 0

/-- JS `x > 0` on a possibly-`NaN` number: `NaN > 0` is `false`. -/
def JsNum.gtZero : JsNum → Bool
  | none => false
  | some q => decide (0 < q)

/-- JS `a || b` on numbers (`NaN` and `0` fall through to `b`). -/
def jsOrNum (a b : JsNum) : JsNum := if a.truthy then a else b

/-- JS `Number(x) || 0` on a possibly-`NaN` number. -/
def numOr0 : JsNum → ℚ
  | none => 0
  | some q => q

/-- JS `Number(x) || 1` on a possibly-`NaN` number. -/
def numOr1 : JsNum → ℚ
  | none => 1
  | some q => if q = 0 then 1 else q

/-- JS `a || b` on ordinary numbers (`0` falls through to `b`). -/
def jsOr (a b : ℚ) : ℚ := if a = 0 then b else a

/-- Decimal rendering of a rational used in row labels; every value
interpolated into a label in this development is an integer, rendered
exactly as JS renders it. -/
def qToString (q : ℚ) : String :=
  if q.den = 1 then toString q.num else toString q.num ++ "/" ++ toString q.den

/-- Insert thousands separators into a reversed digit list
(`toLocaleString('ko-KR')` grouping for integers). -/
def commaGroupRev : List Char → List Char
  | d1 :: d2 :: d3 :: d4 :: rest => d1 :: d2 :: d3 :: ',' :: commaGroupRev (d4 :: rest)
  | l => l

/-- `x.toLocaleString('ko-KR')` for the integer-valued amounts that occur
in violation messages (comma-grouped decimal). -/
def koLocaleString (q : ℚ) : String :=
  if q.den = 1 then
    let sign := if q.num < 0 then "-" else ""
    sign ++ String.mk (commaGroupRev (toString q.num.natAbs).data.reverse).reverse
  else qToString q

/-! ## `pricing.js` — unit-price and discount arithmetic -/

/-- `roundPrice(value, unit)`: rounds to the nearest multiple of `unit`;
`!unit || unit <= 0` falls back to plain `Math.round`. -/
def roundPrice (value : ℚ) (unit : ℚ) : ℚ :=
  if unit ≤ 0 then qOfInt (jsRound value) else qMul (qOfInt (jsRound (qDiv value unit))) unit

/-- `calcDiscountRate(base, option)` — one-decimal discount rate,
`null` (`none`) when the base is `≤ 0` (or falsy):
`Math.round((1 - option/base) * 100 * 10) / 10`. -/
def calcDiscountRate (baseUnitPrice optionUnitPrice : ℚ) : Option ℚ :=
  if baseUnitPrice ≤ 0 then none
  else some (qDiv (qOfInt (jsRound
    (qMul (qMul (qSub 1 (qDiv optionUnitPrice baseUnitPrice)) 100) 10))) 10)

/-- `calcCompetitorAdvantage(competitorUnit, ourUnit)`:
`Math.round((competitor - our) / competitor * 100 * 10) / 10`. -/
def calcCompetitorAdvantage (competitorUnitPrice ourUnitPrice : ℚ) : Option ℚ :=
  if competitorUnitPrice ≤ 0 then none
  else some (qDiv (qOfInt (jsRound
    (qMul (qMul (qDiv (qSub competitorUnitPrice ourUnitPrice) competitorUnitPrice) 100) 10))) 10)

/-- `calcUnitPrice(type, price, sessions, shots, roundUnit)`: the source
returns `0` before rounding when `!price || price <= 0`. -/
def calcUnitPrice (type : String) (price sessions shots roundUnit : ℚ) : ℚ :=
  if price ≤ 0 then 0
  else
    let unitPrice : ℚ :=
      if type = "session" then (if 0 < sessions then qDiv price sessions else 0)
      else if type = "shot" then (if 0 < shots then qDiv price shots else 0)
      else if type = "mixed" then
        (if 0 < qMul shots sessions then qDiv price (qMul shots sessions) else 0)
      else 0
    roundPrice unitPrice roundUnit

/-- `calcTotalQuantity(type, sessions, shots)`. -/
def calcTotalQuantity (type : String) (sessions shots : ℚ) : ℚ :=
  if type = "session" then sessions
  else if type = "shot" then shots
  else if type = "mixed" then qMul shots sessions
  else 0

/-- Row type tags (`rowType` strings of the source). -/
inductive RowType
  | trial
  | event
  | option
  | competitor
deriving DecidableEq

/-- A pricing result row, as produced by `computeItemRows`.  The
`competitorAdvantage` field is absent (`none`) on non-competitor rows. -/
structure Row where
  rowType : RowType
  label : String
  price : ℚ
  sessions : ℚ
  shots : ℚ
  totalQuantity : ℚ
  unitPrice : ℚ
  discountFromTrial : Option ℚ
  discountFromEvent : Option ℚ
  competitorAdvantage : Option ℚ
  violation : Bool
deriving DecidableEq

/-- One option line of a pricing item (`{sessions, shots, price}`); an
absent field is modelled as `0` (JS `undefined || d` and `0 || d` agree). -/
structure POption where
  sessions : ℚ
  shots : ℚ
  price : ℚ
deriving DecidableEq

/-- Competitor configuration of a pricing item. -/
structure Competitor where
  enabled : Bool
  name : String
  sessions : ℚ
  shots : ℚ
  price : ℚ
deriving DecidableEq

/-- A pricing item, input of `computeItemRows`. -/
structure PricingItem where
  type : String
  trialPrice : ℚ
  eventPrice : ℚ
  baseShots : ℚ
  options : List POption
  competitor : Option Competitor
deriving DecidableEq

/-- `computeItemRows(item, roundUnit)`: trial row, event row, one row per
option, and (when enabled) a competitor row, in that order. -/
def computeItemRows (item : PricingItem) (roundUnit : ℚ) : List Row :=
  let trialSessions : ℚ := 1
  let trialShots : ℚ :=
    if item.type = "shot" ∨ item.type = "mixed" then jsOr item.baseShots 100 else 0
  let trialUnitPrice := calcUnitPrice item.type item.trialPrice trialSessions trialShots roundUnit
  let trialRow : Row :=
    { rowType := .trial
      label := "1회체험가"
      price := jsOr item.trialPrice 0
      sessions := trialSessions
      shots := trialShots
      totalQuantity := calcTotalQuantity item.type trialSessions trialShots
      unitPrice := trialUnitPrice
      discountFromTrial := none
      discountFromEvent := none
      competitorAdvantage := none
      violation := false }
  let eventSessions : ℚ := 1
  let eventShots : ℚ :=
    if item.type = "shot" ∨ item.type = "mixed" then jsOr item.baseShots 100 else 0
  let eventUnitPrice := calcUnitPrice item.type item.eventPrice eventSessions eventShots roundUnit
  let es := qToString eventShots
  let eventLabel :=
    if item.type = "shot" then "이벤트가 (" ++ es ++ "샷)"
    else if item.type = "mixed" then "이벤트가 (" ++ es ++ "샷×1회)"
    else "이벤트가 (1회)"
  let eventRow : Row :=
    { rowType := .event
      label := eventLabel
      price := jsOr item.eventPrice 0
      sessions := eventSessions
      shots := eventShots
      totalQuantity := calcTotalQuantity item.type eventSessions eventShots
      unitPrice := eventUnitPrice
      discountFromTrial := calcDiscountRate trialUnitPrice eventUnitPrice
      discountFromEvent := none
      competitorAdvantage := none
      violation := false }
  let optionRows := item.options.map (fun opt =>
    let optSessions := jsOr opt.sessions 1
    let optShots := jsOr opt.shots (jsOr item.baseShots 0)
    let optUnitPrice := calcUnitPrice item.type opt.price optSessions optShots roundUnit
    let optTotalQty := calcTotalQuantity item.type optSessions optShots
    let oss := qToString optSessions
    let osh := qToString optShots
    let label :=
      if item.type = "session" then oss ++ "회"
      else if item.type = "shot" then osh ++ "샷"
      else if item.type = "mixed" then
        osh ++ "샷 × " ++ oss ++ "회 (총 " ++ qToString (qMul optShots optSessions) ++ "샷)"
      else "옵션"
    { rowType := .option
      label := label
      price := jsOr opt.price 0
      sessions := optSessions
      shots := optShots
      totalQuantity := optTotalQty
      unitPrice := optUnitPrice
      discountFromTrial := calcDiscountRate trialUnitPrice optUnitPrice
      discountFromEvent := calcDiscountRate eventUnitPrice optUnitPrice
      competitorAdvantage := none
      violation := false })
  let competitorRows :=
    match item.competitor with
    | some comp =>
      if comp.enabled then
        let compSessions := jsOr comp.sessions 1
        let compShots := jsOr comp.shots (jsOr item.baseShots 0)
        let compUnitPrice := calcUnitPrice item.type comp.price compSessions compShots roundUnit
        let advantage := calcCompetitorAdvantage compUnitPrice eventUnitPrice
        let base := if comp.name = "" then "경쟁사" else comp.name
        let label :=
          if item.type = "session" then base ++ " (" ++ qToString compSessions ++ "회)"
          else if item.type = "shot" then base ++ " (" ++ qToString compShots ++ "샷)"
          else if item.type = "mixed" then
            base ++ " (" ++ qToString compShots ++ "샷×" ++ qToString compSessions ++ "회)"
          else base
        [{ rowType := .competitor
           label := label
           price := jsOr comp.price 0
           sessions := compSessions
           shots := compShots
           totalQuantity := calcTotalQuantity item.type compSessions compShots
           unitPrice := compUnitPrice
           discountFromTrial := none
           discountFromEvent := none
           competitorAdvantage := advantage
           violation := false }]
      else []
    | none => []
  trialRow :: eventRow :: optionRows ++ competitorRows

/-- `getUnitLabel(type)`. -/
def getUnitLabel (type : String) : String :=
  if type = "session" then "회당가"
  else if type = "shot" ∨ type = "mixed" then "샷당가"
  else "단가"

/-- Scenario D's pricing item:
`{type:'shot', trialPrice:99000, eventPrice:150000, baseShots:100,
options:[{shots:300, price:390000}]}`. -/
def scenarioDItem : PricingItem :=
  { type := "shot"
    trialPrice := 99000
    eventPrice := 150000
    baseShots := 100
    options := [{ sessions := 0, shots := 300, price := 390000 }]
    competitor := none }

/-- **C2** (counterexample). The claim of Scenario D is false on the code:
with `roundUnit = 1000`, `calcUnitPrice` rounds `150000/100 = 1500` to the
nearest multiple of 1000, i.e. `Math.round(1.5)*1000 = 2000` (JS rounds
half up), so the event row's `unitPrice` is 2000, not 1500; likewise the
option row's `unitPrice` is 1000, not 1300, and `discountFromEvent` is 50,
not 13.3. -/
theorem C2_counterexample :
    ¬ (((computeItemRows scenarioDItem 1000).get ⟨1, (by decide)⟩).unitPrice = 1500 ∧
       ((computeItemRows scenarioDItem 1000).get ⟨2, (by decide)⟩).unitPrice = 1300 ∧
       ((computeItemRows scenarioDItem 1000).get ⟨2, (by decide)⟩).discountFromEvent
         = some (mkRat 133 10)) := by
  decide

/-- **C2** (amended). Calling `computeItemRows` with the Scenario D item and
`roundUnit = 1000` returns rows where the event row has `unitPrice = 2000`,
the option row has `unitPrice = 1000`, and the option row's
`discountFromEvent` equals `50` (unit prices are rounded to the nearest
multiple of `roundUnit` before discount rates are taken, per
`calcUnitPrice`/`roundPrice`). -/
theorem C2_amended :
    ((computeItemRows scenarioDItem 1000).get ⟨1, (by decide)⟩).rowType = RowType.event ∧
    ((computeItemRows scenarioDItem 1000).get ⟨1, (by decide)⟩).unitPrice = 2000 ∧
    ((computeItemRows scenarioDItem 1000).get ⟨2, (by decide)⟩).rowType = RowType.option ∧
    ((computeItemRows scenarioDItem 1000).get ⟨2, (by decide)⟩).unitPrice = 1000 ∧
    ((computeItemRows scenarioDItem 1000).get ⟨2, (by decide)⟩).discountFromEvent
      = some 50 := by
  decide

/-! ## `validation.js` — the Monotonic Discount Rule validator -/

/-- The rows subject to the rule: competitor rows are exempt
(`rowType === 'trial' || 'event' || 'option'`). -/
def checkableRows (rows : List Row) : List Row :=
  rows.filter (fun r =>
    r.rowType == RowType.trial || r.rowType == RowType.event || r.rowType == RowType.option)

/-- Eligible rows: price, unit price and total quantity all `> 0`. -/
def validRows (rows : List Row) : List Row :=
  (checkableRows rows).filter (fun r =>
    decide (0 < r.price) && decide (0 < r.unitPrice) && decide (0 < r.totalQuantity))

/-- Stable insertion of a row into a list already sorted by `totalQuantity`:
the new row goes after every row with a `≤` quantity.  Rows are inserted in
original order, so this reproduces the (stable, ES2019) JS
`sort((a, b) => a.totalQuantity - b.totalQuantity)`. -/
def insertRowByQty (r : Row) : List Row → List Row
  | [] => [r]
  | h :: t =>
    if h.totalQuantity ≤ r.totalQuantity then h :: insertRowByQty r t else r :: h :: t

/-- Stable sort by ascending `totalQuantity`. -/
def sortRowsByQty (l : List Row) : List Row :=
  l.foldl (fun acc r => insertRowByQty r acc) []

/-- The eligible rows of `validateMonotonic`, in the order the source's
loop visits them (filter, then stable sort by `totalQuantity`). -/
def eligSorted (rows : List Row) : List Row :=
  sortRowsByQty (validRows rows)

/-- The adjacent-pair walk of the source loop: a pair `(prev, curr)` of
consecutive sorted rows is a violation when `curr.totalQuantity` is
strictly greater and `curr.unitPrice ≥ prev.unitPrice`. -/
def adjacentViolations : List Row → List (Row × Row)
  | [] => []
  | [_] => []
  | a :: b :: t =>
    (if decide (a.totalQuantity < b.totalQuantity) && decide (a.unitPrice ≤ b.unitPrice)
     then [(a, b)] else []) ++ adjacentViolations (b :: t)

/-- The violating pairs of a row array. -/
def violationPairs (rows : List Row) : List (Row × Row) :=
  adjacentViolations (eligSorted rows)

/-- The labels collected into the source's `violationLabels` set. -/
def violationLabels (rows : List Row) : List String :=
  (violationPairs rows).map (fun p => p.2.label)

/-- One violation message, as formatted by the source. -/
def violationMessage (itemName : String) (prev curr : Row) : String :=
  let px := if itemName = "" then "" else "[" ++ itemName ++ "] "
  let cl := curr.label
  let cu := koLocaleString curr.unitPrice
  let pl := prev.label
  let pu := koLocaleString prev.unitPrice
  px ++ "\"" ++ cl ++ "\" 단가(" ++ cu ++ "원)가 " ++
    "\"" ++ pl ++ "\" 단가(" ++ pu ++ "원)보다 " ++
    "높거나 같습니다. 수량↑ → 단가↓ 규칙 위반!"

/-- `validateMonotonic(rows, itemName)`: returns the new row array (each
row copied with `violation := label ∈ violationLabels`) together with the
violation messages. -/
def validateMonotonic (rows : List Row) (itemName : String) : List Row × List String :=
  ( rows.map (fun r => { r with violation := (violationLabels rows).contains r.label }),
    (violationPairs rows).map (fun p => violationMessage itemName p.1 p.2) )

/-- `validateAll(allItems)`: concatenates the per-item violation messages. -/
def validateAll (allItems : List (String × List Row)) : List String :=
  allItems.flatMap (fun it => (validateMonotonic it.2 it.1).2)

/-- An eligible option row used in concrete validator inputs. -/
def mkOptRow (lbl : String) (tq up : ℚ) : Row :=
  { rowType := .option
    label := lbl
    price := 100000
    sessions := 1
    shots := 0
    totalQuantity := tq
    unitPrice := up
    discountFromTrial := none
    discountFromEvent := none
    competitorAdvantage := none
    violation := false }

/-- Counterexample rows for C1: quantities 1, 2, 3 with unit prices
10, 20, 15.  The walk flags only the (1,2)-pair's later row; the pair
(quantity 1, quantity 3) violates monotonicity but is never compared. -/
def exRowsC1 : List Row := [mkOptRow "r1" 1 10, mkOptRow "r2" 2 20, mkOptRow "r3" 3 15]

example : violationLabels exRowsC1 = ["r2"] := by decide

/-- **C1** (counterexample). The invariant fails as stated: in `exRowsC1`
both `r1` (quantity 1, unit price 10) and `r3` (quantity 3, unit price 15)
are eligible and `r1.totalQuantity < r3.totalQuantity`, yet after
validation the copy of `r3` has `violation = false` and its unit price is
not below `r1`'s — the loop only compares adjacent rows of the sorted
list, and `r3`'s neighbour is `r2` (unit price 20), not `r1`. -/
theorem C1_counterexample :
    (mkOptRow "r1" 1 10).rowType = RowType.option ∧
    0 < (mkOptRow "r1" 1 10).price ∧ 0 < (mkOptRow "r1" 1 10).unitPrice ∧
    0 < (mkOptRow "r1" 1 10).totalQuantity ∧
    (mkOptRow "r3" 3 15).rowType = RowType.option ∧
    0 < (mkOptRow "r3" 3 15).price ∧ 0 < (mkOptRow "r3" 3 15).unitPrice ∧
    0 < (mkOptRow "r3" 3 15).totalQuantity ∧
    (mkOptRow "r1" 1 10).totalQuantity < (mkOptRow "r3" 3 15).totalQuantity ∧
    (validateMonotonic exRowsC1 "").1.get ⟨2, (by decide)⟩
      = { mkOptRow "r3" 3 15 with violation := false } ∧
    ¬ ((mkOptRow "r3" 3 15).unitPrice < (mkOptRow "r1" 1 10).unitPrice) := by
  decide

theorem mem_insertRowByQty {x r : Row} :
    ∀ {l : List Row}, x ∈ insertRowByQty r l → x = r ∨ x ∈ l := by
  intro l
  induction l with
  | nil => intro hx; simpa [insertRowByQty] using hx
  | cons h t ih =>
    intro hx
    rw [insertRowByQty] at hx
    split at hx
    · rcases List.mem_cons.mp hx with h1 | h2
      · right; exact List.mem_cons.mpr (Or.inl h1)
      · rcases ih h2 with h3 | h4
        · left; exact h3
        · right; exact List.mem_cons.mpr (Or.inr h4)
    · rcases List.mem_cons.mp hx with h1 | h2
      · left; exact h1
      · right; exact h2

theorem mem_foldl_insertRowByQty {x : Row} :
    ∀ (l acc : List Row),
      x ∈ l.foldl (fun acc r => insertRowByQty r acc) acc → x ∈ acc ∨ x ∈ l := by
  intro l
  induction l with
  | nil => intro acc hx; left; simpa using hx
  | cons h t ih =>
    intro acc hx
    rw [List.foldl_cons] at hx
    rcases ih _ hx with h1 | h2
    · rcases mem_insertRowByQty h1 with h3 | h4
      · right; simp [h3]
      · left; exact h4
    · right; exact List.mem_cons_of_mem _ h2

theorem mem_of_mem_eligSorted {x : Row} {rows : List Row}
    (hx : x ∈ eligSorted rows) : x ∈ rows := by
  rw [eligSorted, sortRowsByQty] at hx
  rcases mem_foldl_insertRowByQty _ _ hx with h1 | h2
  · simp at h1
  · exact List.mem_of_mem_filter (List.mem_of_mem_filter h2)

theorem adjacentViolations_mem :
    ∀ (l : List Row) (i : ℕ) (h : i + 1 < l.length),
      (l.get ⟨i, Nat.lt_of_succ_lt h⟩).totalQuantity < (l.get ⟨i+1, h⟩).totalQuantity →
      (l.get ⟨i, Nat.lt_of_succ_lt h⟩).unitPrice ≤ (l.get ⟨i+1, h⟩).unitPrice →
      (l.get ⟨i, Nat.lt_of_succ_lt h⟩, l.get ⟨i+1, h⟩) ∈ adjacentViolations l := by
  intro l
  induction l with
  | nil => intro i h; simp at h
  | cons a t ih =>
    intro i h htq hup
    cases t with
    | nil => simp at h
    | cons b t' =>
      cases i with
      | zero =>
        rw [adjacentViolations]
        apply List.mem_append_left
        simp only [List.get] at htq hup ⊢
        rw [if_pos (by simp [htq, hup])]
        exact List.mem_singleton.mpr rfl
      | succ j =>
        rw [adjacentViolations]
        apply List.mem_append_right
        have hj : j + 1 < (b :: t').length := by simpa using h
        have := ih j hj (by simpa using htq) (by simpa using hup)
        simpa using this

/-- **C1** (amended). The invariant the code guarantees is the adjacent
form: for consecutive rows `a = sorted[i]`, `b = sorted[i+1]` of the
stably-sorted eligible list with `a.totalQuantity < b.totalQuantity`,
after validation either `b.unitPrice < a.unitPrice` or the returned copy
of `b` carries `violation = true`.  (Non-adjacent pairs are not checked —
see the counterexample.) -/
theorem C1_amended (rows : List Row) (nm : String) (i : ℕ)
    (h : i + 1 < (eligSorted rows).length)
    (htq : ((eligSorted rows).get ⟨i, Nat.lt_of_succ_lt h⟩).totalQuantity
         < ((eligSorted rows).get ⟨i+1, h⟩).totalQuantity) :
    ((eligSorted rows).get ⟨i+1, h⟩).unitPrice
      < ((eligSorted rows).get ⟨i, Nat.lt_of_succ_lt h⟩).unitPrice ∨
    { (eligSorted rows).get ⟨i+1, h⟩ with violation := true }
      ∈ (validateMonotonic rows nm).1 := by
  set a := (eligSorted rows).get ⟨i, Nat.lt_of_succ_lt h⟩ with ha
  set b := (eligSorted rows).get ⟨i+1, h⟩ with hb
  by_cases hup : b.unitPrice < a.unitPrice
  · exact Or.inl hup
  · right
    have hle : a.unitPrice ≤ b.unitPrice := le_of_not_lt hup
    have hpair : (a, b) ∈ adjacentViolations (eligSorted rows) :=
      adjacentViolations_mem (eligSorted rows) i h htq hle
    have hlbl : b.label ∈ violationLabels rows := by
      rw [violationLabels, violationPairs]
      exact List.mem_map.mpr ⟨(a, b), hpair, rfl⟩
    have hcontains : (violationLabels rows).contains b.label = true := by
      exact List.elem_iff.mpr hlbl
    have hmem : b ∈ rows := mem_of_mem_eligSorted (List.get_mem _ _ h)
    have : { b with violation := (violationLabels rows).contains b.label }
        ∈ (validateMonotonic rows nm).1 := by
      rw [validateMonotonic]
      exact List.mem_map.mpr ⟨b, hmem, rfl⟩
    rwa [hcontains] at this

/-- Two eligible rows whose adjacent pair violates the rule, used to
witness `C1_amended`. -/
def exRowsC1W : List Row := [mkOptRow "a" 1 10, mkOptRow "b" 2 20]

theorem C1_amended_witness :
    0 + 1 < (eligSorted exRowsC1W).length ∧
    (((eligSorted exRowsC1W).get ⟨0+1, (by decide)⟩).unitPrice
        < ((eligSorted exRowsC1W).get ⟨0, (by decide)⟩).unitPrice ∨
      { (eligSorted exRowsC1W).get ⟨0+1, (by decide)⟩ with violation := true }
        ∈ (validateMonotonic exRowsC1W "").1) :=
  ⟨by decide, C1_amended exRowsC1W "" 0 (by decide) (by decide)⟩

/-- **C6**. `validateMonotonic` is a per-row copy: the output array has the
same length, and the `i`-th output row agrees with the `i`-th input row on
every field except `violation`, which is set exactly when the row's label
is in the violating-label set (and `false` otherwise).  The input array is
never mutated (the embedding is pure; the source copies each row with a
spread before writing `violation`). -/
theorem C6_frame (rows : List Row) (nm : String) (i : ℕ) (h : i < rows.length) :
    (validateMonotonic rows nm).1.length = rows.length ∧
    ∃ r', (validateMonotonic rows nm).1.get? i = some r' ∧
      r'.rowType = (rows.get ⟨i, h⟩).rowType ∧
      r'.label = (rows.get ⟨i, h⟩).label ∧
      r'.price = (rows.get ⟨i, h⟩).price ∧
      r'.sessions = (rows.get ⟨i, h⟩).sessions ∧
      r'.shots = (rows.get ⟨i, h⟩).shots ∧
      r'.totalQuantity = (rows.get ⟨i, h⟩).totalQuantity ∧
      r'.unitPrice = (rows.get ⟨i, h⟩).unitPrice ∧
      r'.discountFromTrial = (rows.get ⟨i, h⟩).discountFromTrial ∧
      r'.discountFromEvent = (rows.get ⟨i, h⟩).discountFromEvent ∧
      r'.competitorAdvantage = (rows.get ⟨i, h⟩).competitorAdvantage ∧
      r'.violation = (violationLabels rows).contains (rows.get ⟨i, h⟩).label := by
  constructor
  · rw [validateMonotonic]
    exact List.length_map _ _
  · refine ⟨{ rows.get ⟨i, h⟩ with
        violation := (violationLabels rows).contains (rows.get ⟨i, h⟩).label }, ?_,
      rfl, rfl, rfl, rfl, rfl, rfl, rfl, rfl, rfl, rfl, rfl⟩
    rw [validateMonotonic]
    simp only [List.get?_eq_getElem?, List.getElem?_map]
    rw [List.getElem?_eq_getElem h]
    rfl

theorem C6_frame_witness :
    0 < exRowsC1.length ∧ (validateMonotonic exRowsC1 "").1.length = exRowsC1.length :=
  ⟨by decide, (C6_frame exRowsC1 "" 0 (by decide)).1⟩

/-! ## `packagePricing.js` — Korean price-token parsing

The regexes of the source are embedded as explicit scanners.  A scanner
tries a match at each start index from the left (as the JS engine does)
and inside one attempt uses maximal munch for each greedy piece; where
that is not equivalent to the regex's backtracking, the backtracking
cases are spelled out at the definition. -/

/-- JS `\d` is exactly `[0-9]`. -/
def isDigitChar (c : Char) : Bool := '0' ≤ c && c ≤ '9'

/-- JS `\s`, restricted to its ASCII members (the Unicode space
characters it also accepts do not occur in the inputs considered). -/
def isWsChar (c : Char) : Bool :=
  c == ' ' || c == '\t' || c == '\n' || c == '\r' || c == '\x0B' || c == '\x0C'

/-- The class `[\d.]`. -/
def isDigitDot (c : Char) : Bool := isDigitChar c || c == '.'

/-- The class `[\d,]`. -/
def isDigitComma (c : Char) : Bool := isDigitChar c || c == ','

/-- The class `[\d.,]`. -/
def isDigitDotComma (c : Char) : Bool := isDigitChar c || c == '.' || c == ','

/-- JS `String.prototype.trim` on a char list. -/
def jsTrimChars (l : List Char) : List Char :=
  ((l.dropWhile isWsChar).reverse.dropWhile isWsChar).reverse

/-- JS `String.prototype.trim`. -/
def jsTrim (s : String) : String := String.mk (jsTrimChars s.data)

/-- JS `split(sep)` for a one-character separator: splits at every
occurrence, keeping empty segments. -/
def splitOnChar (sep : Char) : List Char → List (List Char)
  | [] => [[]]
  | c :: rest =>
    let r := splitOnChar sep rest
    if c == sep then [] :: r
    else
      match r with
      | h :: t => (c :: h) :: t
      | [] => [[c]]

/-- Decimal digit run to a natural number (`Number` on a digit string;
the empty string gives 0, matching `Number('') || 0`). -/
def digitsToNat (l : List Char) : ℕ :=
  l.foldl (fun n c => 10 * n + (c.toNat - '0'.toNat)) 0

/-- JS `parseFloat` on a capture of the class `[\d.]+`: longest valid
decimal prefix, `none` for `NaN` (e.g. `"."` or `"..5"`).  (The general
`parseFloat` also accepts signs and exponents, which this character class
cannot produce.) -/
def parseFloatDD (l : List Char) : Option ℚ :=
  match l with
  | [] => none
  | '.' :: rest =>
    let ds := rest.takeWhile isDigitChar
    if ds.isEmpty then none
    else some (qDiv (qOfNat (digitsToNat ds)) (qOfNat (10 ^ ds.length)))
  | c :: _ =>
    if isDigitChar c then
      let intDs := l.takeWhile isDigitChar
      let rest := l.dropWhile isDigitChar
      match rest with
      | '.' :: rest2 =>
        let ds := rest2.takeWhile isDigitChar
        some (qAdd (qOfNat (digitsToNat intDs))
          (qDiv (qOfNat (digitsToNat ds)) (qOfNat (10 ^ ds.length))))
      | _ => some (qOfNat (digitsToNat intDs))
    else none

/-- Leftmost match of `/([\d.]+)\s*만/`, returning the capture.  Maximal
munch is exact here: a shortened `[\d.]+` run would require `만` to equal
a digit, dot, or whitespace character, which is impossible, so no
backtracking case arises. -/
def manScan : List Char → Option (List Char)
  | [] => none
  | c :: rest =>
    if isDigitDot c then
      let run := (c :: rest).takeWhile isDigitDot
      let after := ((c :: rest).dropWhile isDigitDot).dropWhile isWsChar
      match after with
      | '만' :: _ => some run
      | _ => manScan rest
    else manScan rest

/-- Leftmost match of `/([\d,]+)/` (greedy, no trailing context). -/
def wonScan : List Char → Option (List Char)
  | [] => none
  | c :: rest =>
    if isDigitComma c then some ((c :: rest).takeWhile isDigitComma)
    else wonScan rest

/-- `parseKoreanPrice(str)`: `"5.5만원" → 55000`, `"99,000원" → 99000`,
otherwise 0.  Returns `none` (`NaN`) when the `만`-pattern matches but its
captured token has no digits so that `parseFloat` gives `NaN` (e.g.
`".만"`). -/
def parseKoreanPrice (str : String) : JsNum :=
  if str = "" then some 0
  else
    let s := jsTrimChars str.data
    match manScan s with
    | some cap =>
      match parseFloatDD cap with
      | some q => some (qOfInt (jsRound (qMul q (qOfNat 10000))))
      | none => none
    | none =>
      match wonScan s with
      | some cap => some (qOfNat (digitsToNat (cap.filter (fun c => c != ','))))
      | none => some 0

example : parseKoreanPrice "5.5만원" = some 55000 := by decide
example : parseKoreanPrice "5.5만" = some 55000 := by decide
example : parseKoreanPrice "99,000원" = some 99000 := by decide
example : parseKoreanPrice "9900" = some 9900 := by decide
example : parseKoreanPrice "" = some 0 := by decide
example : parseKoreanPrice "abc" = some 0 := by decide

/-- **C3** (code bug, evaluation). On input `".만"` the `만`-regex of
`parseKoreanPrice` matches with capture `"."`, `parseFloat('.')` is `NaN`,
and `Math.round(NaN * 10000)` is `NaN` — the function returns `NaN`
(modelled `none`), not a non-negative integer, contradicting the
contract `parseKoreanPrice(text) → integer ≥ 0` and the error-handling
rule that unparseable tokens resolve to 0. -/
theorem C3_code_bug_eval : parseKoreanPrice ".만" = none := by decide

/-- Does `p` occur at the head of `s`? (character-list version of a
literal-string regex piece). -/
def charsLead : List Char → List Char → Bool
  | [], _ => true
  | _, [] => false
  | a :: as, b :: bs => a == b && charsLead as bs

/-- The capture `([\d.,]+\s*만?\s*원?)` of `extractPrices`, attempted at
the current position: greedy `[\d.,]+` run, then the optional `만`/`원`
tail with its interleaved whitespace.  All pieces are greedy with no
following context, so maximal munch is exact. -/
def capPrice (s : List Char) : Option (List Char) :=
  let run := s.takeWhile isDigitDotComma
  if run.isEmpty then none
  else
    let r1 := s.dropWhile isDigitDotComma
    let w1 := r1.takeWhile isWsChar
    let r2 := r1.dropWhile isWsChar
    match r2 with
    | '만' :: r3 =>
      let w2 := r3.takeWhile isWsChar
      match r3.dropWhile isWsChar with
      | '원' :: _ => some (run ++ w1 ++ ['만'] ++ w2 ++ ['원'])
      | _ => some (run ++ w1 ++ ['만'] ++ w2)
    | '원' :: _ => some (run ++ w1 ++ ['원'])
    | _ => some (run ++ w1)

/-- Leftmost match of `/<label>\s+([\d.,]+\s*만?\s*원?)/`, returning the
capture.  A shortened `\s+` would put a whitespace character where
`[\d.,]+` must match, so the only backtracking is the restart at the next
start index. -/
def findLabelCap (lbl : List Char) : List Char → Option (List Char)
  | [] => none
  | c :: rest =>
    match
      (if charsLead lbl (c :: rest) then
        let r := (c :: rest).drop lbl.length
        if (r.takeWhile isWsChar).isEmpty then none
        else capPrice (r.dropWhile isWsChar)
      else none) with
    | some cap => some cap
    | none => findLabelCap lbl rest

/-- The `{trial, event}` pair returned by `extractPrices`. -/
structure TrialEvent where
  trial : JsNum
  event : JsNum
deriving DecidableEq

/-- `extractPrices(str)`: the price after a `1체` label, the price after
an `이벤트` label, and — when both are falsy — a bare price assigned to
`event` if positive. -/
def extractPrices (str : String) : TrialEvent :=
  let s := str.data
  let trial : JsNum :=
    match findLabelCap "1체".data s with
    | some cap => parseKoreanPrice (String.mk cap)
    | none => some 0
  let event : JsNum :=
    match findLabelCap "이벤트".data s with
    | some cap => parseKoreanPrice (String.mk cap)
    | none => some 0
  if !trial.truthy && !event.truthy then
    let rawPrice := parseKoreanPrice str
    if rawPrice.gtZero then { trial := trial, event := rawPrice }
    else { trial := trial, event := event }
  else { trial := trial, event := event }

example : extractPrices "1체 5.5만원 / 이벤트 12.9만원"
    = { trial := some 55000, event := some 129000 } := by decide
example : extractPrices "이벤트 2.3만원" = { trial := some 0, event := some 23000 } := by decide
example : extractPrices "5.3만원" = { trial := some 0, event := some 53000 } := by decide

/-- A parsed `ㄴ` sub-item (`{name, trialPrice, eventPrice, isNote}`). -/
structure SubItem where
  name : String
  trialPrice : JsNum
  eventPrice : JsNum
  isNote : Bool
deriving DecidableEq

/-- Index of the first `':'` in a char list, if any. -/
def colonIdxOf : List Char → Option ℕ
  | [] => none
  | c :: rest =>
    if c == ':' then some 0
    else
      match colonIdxOf rest with
      | some i => some (i + 1)
      | none => none

/-- The segment loop of `parseSubItemLine`: a segment with a colon at
index `> 0` not starting with a digit opens a new named sub-item; any
other segment continues the pending sub-item's price expression. -/
def subItemLoop : List (List Char) → String → JsNum → JsNum → List SubItem
  | [], pendingName, pendingTrial, pendingEvent =>
    if pendingName ≠ "" then
      [{ name := pendingName, trialPrice := pendingTrial, eventPrice := pendingEvent,
         isNote := false }]
    else []
  | seg :: rest, pendingName, pendingTrial, pendingEvent =>
    let startsDigit := match seg with
      | [] => false
      | c :: _ => isDigitChar c
    match colonIdxOf seg with
    | some k =>
      if 0 < k ∧ !startsDigit then
        let flushed :=
          if pendingName ≠ "" then
            [{ name := pendingName, trialPrice := pendingTrial, eventPrice := pendingEvent,
               isNote := false }]
          else []
        let newName := String.mk (jsTrimChars (seg.take k))
        let priceStr := String.mk (jsTrimChars (seg.drop (k + 1)))
        let prices := extractPrices priceStr
        flushed ++ subItemLoop rest newName prices.trial prices.event
      else
        let prices := extractPrices (String.mk seg)
        let pendingTrial' := if prices.trial.truthy then prices.trial else pendingTrial
        let pendingEvent' := if prices.event.truthy then prices.event else pendingEvent
        subItemLoop rest pendingName pendingTrial' pendingEvent'
    | none =>
      let prices := extractPrices (String.mk seg)
      let pendingTrial' := if prices.trial.truthy then prices.trial else pendingTrial
      let pendingEvent' := if prices.event.truthy then prices.event else pendingEvent
      subItemLoop rest pendingName pendingTrial' pendingEvent'

/-- `parseSubItemLine(line)`: strips the `ㄴ` marker, treats colon-free
content as a note, otherwise splits on `/` and folds the segments. -/
def parseSubItemLine (line : String) : List SubItem :=
  let content0 :=
    match line.data with
    | 'ㄴ' :: rest => rest.dropWhile isWsChar
    | l => l
  let content := jsTrimChars content0
  if content.isEmpty then []
  else if !content.contains ':' then
    [{ name := String.mk content, trialPrice := some 0, eventPrice := some 0, isNote := true }]
  else
    let segments := (splitOnChar '/' content).map jsTrimChars
    subItemLoop segments "" (some 0) (some 0)

example : parseSubItemLine "ㄴ시술A: 1체 5.5만원 / 이벤트 12.9만원"
    = [{ name := "시술A", trialPrice := some 55000, eventPrice := some 129000,
         isNote := false }] := by decide
example : parseSubItemLine "ㄴ코 프락셀X"
    = [{ name := "코 프락셀X", trialPrice := some 0, eventPrice := some 0,
         isNote := true }] := by decide

/-- `priceSource` values of a package item. -/
inductive PriceSource
  | manual
  | trial
  | event
  | branch
deriving DecidableEq

/-- A `PackageItem` (`{procedureName, quantity, individualPrice,
priceSource, procedureId?, branchCategory?}`). -/
structure PackageItem where
  procedureName : String
  quantity : JsNum
  individualPrice : JsNum
  priceSource : PriceSource
  procedureId : Option ℚ
  branchCategory : Option String
deriving DecidableEq

/-- A `Package`; the impure `Date.now()`-based `id` is omitted. -/
structure Package where
  name : String
  packagePrice : JsNum
  memo : Option String
  items : List PackageItem
deriving DecidableEq

/-- The in-progress package of the enhanced parser (before
`finalizeEnhancedPackage`). -/
structure RawPackage where
  name : String
  packagePrice : JsNum
  memo : String
  subItems : List SubItem
  description : List String
deriving DecidableEq

/-- Split a char list at the first `')'` (content before it, rest after),
if one exists. -/
def splitAtClose : List Char → Option (List Char × List Char)
  | [] => none
  | c :: rest =>
    if c == ')' then some ([], rest)
    else
      match splitAtClose rest with
      | some (a, b) => some (c :: a, b)
      | none => none

/-- The global replace `/\(([^)]*)\)/g`: each `'('` with a later `')'` is
replaced (with its content, up to the first `')'`) by one space, and the
trimmed content is collected in order.  A `'('` with no later `')'` never
matches and is kept.  The fuel argument (call it with the input length)
only makes the recursion through `splitAtClose`'s suffix structural. -/
def extractParenAux : ℕ → List Char → List Char × List String
  | 0, l => (l, [])
  | _ + 1, [] => ([], [])
  | fuel + 1, c :: rest =>
    if c == '(' then
      match splitAtClose rest with
      | some (inside, after) =>
        let res := extractParenAux fuel after
        (' ' :: res.1, String.mk (jsTrimChars inside) :: res.2)
      | none => (c :: rest, [])
    else
      let res := extractParenAux fuel rest
      (c :: res.1, res.2)

/-- The replace `/\s+/g, ' '`: collapse every whitespace run to one space. -/
def collapseWs : List Char → List Char
  | [] => []
  | [c] => if isWsChar c then [' '] else [c]
  | c1 :: c2 :: rest =>
    if isWsChar c1 && isWsChar c2 then collapseWs (c2 :: rest)
    else (if isWsChar c1 then ' ' else c1) :: collapseWs (c2 :: rest)

/-- The end-anchored tail `\s*원?\s*$`. -/
def endWonWs (rest : List Char) : Bool :=
  match rest.dropWhile isWsChar with
  | [] => true
  | '원' :: r2 => r2.all isWsChar
  | _ => false

/-- Leftmost match of `/\s+([\d.]+)\s*만\s*원?\s*$/`: returns the text
before the match (for `slice(0, m.index)`) and the captured number run.
Each greedy piece is followed by a character it cannot match, so maximal
munch is exact within one attempt. -/
def scanEndMan : List Char → List Char → Option (List Char × List Char)
  | _, [] => none
  | acc, c :: rest =>
    let att : Option (List Char × List Char) :=
      if isWsChar c then
        let r := (c :: rest).dropWhile isWsChar
        let run := r.takeWhile isDigitDot
        if !run.isEmpty then
          match (r.dropWhile isDigitDot).dropWhile isWsChar with
          | '만' :: r3 => if endWonWs r3 then some (acc.reverse, run) else none
          | _ => none
        else none
      else none
    match att with
    | some x => some x
    | none => scanEndMan (c :: acc) rest

/-- Leftmost match of `/\s+([\d,]+)\s*원?\s*$/` (same output shape). -/
def scanEndWon : List Char → List Char → Option (List Char × List Char)
  | _, [] => none
  | acc, c :: rest =>
    let att : Option (List Char × List Char) :=
      if isWsChar c then
        let r := (c :: rest).dropWhile isWsChar
        let run := r.takeWhile isDigitComma
        if !run.isEmpty then
          if endWonWs (r.dropWhile isDigitComma) then some (acc.reverse, run) else none
        else none
      else none
    match att with
    | some x => some x
    | none => scanEndWon (c :: acc) rest

/-- Leftmost match of `/\s+([\d,]{4,})\s*원\s/`: a mid-line price with at
least 4 digit/comma characters, `원`, and one following whitespace
character; returns (text before, capture, text after the single `\s`). -/
def scanMidWon : List Char → List Char → Option (List Char × List Char × List Char)
  | _, [] => none
  | acc, c :: rest =>
    let att : Option (List Char × List Char × List Char) :=
      if isWsChar c then
        let r := (c :: rest).dropWhile isWsChar
        let run := r.takeWhile isDigitComma
        if 4 ≤ run.length then
          match (r.dropWhile isDigitComma).dropWhile isWsChar with
          | '원' :: r3 =>
            match r3 with
            | c2 :: r4 => if isWsChar c2 then some (acc.reverse, run, r4) else none
            | [] => none
          | _ => none
        else none
      else none
    match att with
    | some x => some x
    | none => scanMidWon (c :: acc) rest

/-- The tail `\s*원?\s` of the mid-line `만` pattern.  Backtracking
matters here: on input `" abc"` the greedy `\s*` first eats the space,
`원?` matches empty and the mandatory `\s` fails, so the engine retracts
`\s*` by one and the space satisfies the final `\s` — i.e. a non-empty
whitespace run alone matches, with the trailing text starting at the
first non-whitespace character.  The same retraction applies after an
unconsumable `원`. -/
def tailOptWonOneWs (rest : List Char) : Option (List Char) :=
  let w := rest.takeWhile isWsChar
  match rest.dropWhile isWsChar with
  | '원' :: r2 =>
    match r2 with
    | c :: r3 =>
      if isWsChar c then some r3
      else if !w.isEmpty then some ('원' :: r2) else none
    | [] => if !w.isEmpty then some ['원'] else none
  | r => if !w.isEmpty then some r else none

/-- Leftmost match of `/\s+([\d.]+)\s*만\s*원?\s/` (mid-line `만` price
with trailing text; output as in `scanMidWon`). -/
def scanMidMan : List Char → List Char → Option (List Char × List Char × List Char)
  | _, [] => none
  | acc, c :: rest =>
    let att : Option (List Char × List Char × List Char) :=
      if isWsChar c then
        let r := (c :: rest).dropWhile isWsChar
        let run := r.takeWhile isDigitDot
        if !run.isEmpty then
          match (r.dropWhile isDigitDot).dropWhile isWsChar with
          | '만' :: r3 =>
            match tailOptWonOneWs r3 with
            | some trailing => some (acc.reverse, run, trailing)
            | none => none
          | _ => none
        else none
      else none
    match att with
    | some x => some x
    | none => scanMidMan (c :: acc) rest

/-- Join a list of strings with a separator (JS `Array.prototype.join`). -/
def joinSep (sep : String) : List String → String
  | [] => ""
  | [s] => s
  | s :: s2 :: rest => s ++ sep ++ joinSep sep (s2 :: rest)

/-- `parseEnhancedMainLine(text)`: extract parenthesised memos, collapse
whitespace, then try the four price patterns in order — trailing `만원`,
trailing `원` (only taken when the value is at least 1000), mid-line `원`
with trailing description, mid-line `만원` with trailing description.
A later branch only runs while the price so far is falsy (0 or `NaN`). -/
def parseEnhancedMainLine (text : String) : RawPackage :=
  let pm := extractParenAux text.data.length text.data
  let stripped := jsTrimChars (collapseWs pm.1)
  let memos0 := pm.2
  let st0 : String × JsNum × List String := (String.mk stripped, some 0, memos0)
  let st1 :=
    match scanEndMan [] stripped with
    | some (before, run) =>
      let p : JsNum := (parseFloatDD run).map (fun q => qOfInt (jsRound (qMul q (qOfNat 10000))))
      (String.mk (jsTrimChars before), p, memos0)
    | none => st0
  let st2 :=
    if !st1.2.1.truthy then
      match scanEndWon [] stripped with
      | some (before, run) =>
        let v : ℚ := qOfNat (digitsToNat (run.filter (fun c => c != ',')))
        if 1000 ≤ v then (String.mk (jsTrimChars before), some v, st1.2.2) else st1
      | none => st1
    else st1
  let st3 :=
    if !st2.2.1.truthy then
      match scanMidWon [] stripped with
      | some (before, run, trailing) =>
        let v : ℚ := qOfNat (digitsToNat (run.filter (fun c => c != ',')))
        let tr := jsTrimChars trailing
        let m3 := if tr.isEmpty then st2.2.2 else st2.2.2 ++ [String.mk tr]
        (String.mk (jsTrimChars before), some v, m3)
      | none => st2
    else st2
  let st4 :=
    if !st3.2.1.truthy then
      match scanMidMan [] stripped with
      | some (before, run, trailing) =>
        let p : JsNum := (parseFloatDD run).map (fun q => qOfInt (jsRound (qMul q (qOfNat 10000))))
        let tr := jsTrimChars trailing
        let m4 := if tr.isEmpty then st3.2.2 else st3.2.2 ++ [String.mk tr]
        (String.mk (jsTrimChars before), p, m4)
      | none => st3
    else st3
  { name := st4.1
    packagePrice := st4.2.1
    memo := joinSep "; " (st4.2.2.filter (fun m => m ≠ ""))
    subItems := []
    description := [] }

example : (parseEnhancedMainLine "패키지 180000원 1년 무제한").packagePrice = some 180000 := by
  decide

example : (parseEnhancedMainLine "패키지 180000원 1년 무제한").memo = "1년 무제한" := by decide

example : (parseEnhancedMainLine "풀페이스 5.5만원 추가설명").packagePrice = some 55000 := by
  decide

/-- The quantity suffix `/\s+(\d+)회\s*$/` of a package-item segment. -/
def scanEndQty : List Char → List Char → Option (List Char × List Char)
  | _, [] => none
  | acc, c :: rest =>
    let att : Option (List Char × List Char) :=
      if isWsChar c then
        let r := (c :: rest).dropWhile isWsChar
        let run := r.takeWhile isDigitChar
        if !run.isEmpty then
          match r.dropWhile isDigitChar with
          | '회' :: r2 => if r2.all isWsChar then some (acc.reverse, run) else none
          | _ => none
        else none
      else none
    match att with
    | some x => some x
    | none => scanEndQty (c :: acc) rest

/-- `parsePackageItems(packageName)`: split on `+`, each non-empty part
may end with a `N회` quantity suffix (default quantity 1); price 0,
source `manual`. -/
def parsePackageItems (packageName : String) : List PackageItem :=
  let parts := ((splitOnChar '+' packageName.data).map jsTrimChars).filter (fun p => !p.isEmpty)
  parts.map (fun part =>
    match scanEndQty [] part with
    | some (before, run) =>
      { procedureName := String.mk (jsTrimChars before)
        quantity := some (qOfNat (digitsToNat run))
        individualPrice := some 0
        priceSource := .manual
        procedureId := none
        branchCategory := none }
    | none =>
      { procedureName := String.mk part
        quantity := some 1
        individualPrice := some 0
        priceSource := .manual
        procedureId := none
        branchCategory := none })

/-- `finalizeEnhancedPackage(raw)`: priced sub-items (non-note, trial or
event price > 0) become the items with `individualPrice = trial || event`
and the matching `priceSource`; otherwise the name is decomposed by `+`.
Description lines are joined by `" / "` into the memo; an empty memo
becomes `undefined` (`none`). -/
def finalizeEnhancedPackage (raw : RawPackage) : Package :=
  let pricedSubs := raw.subItems.filter
    (fun s => !s.isNote && (s.trialPrice.gtZero || s.eventPrice.gtZero))
  let items0 :=
    if 0 < raw.subItems.length ∧ 0 < pricedSubs.length then
      pricedSubs.map (fun s =>
        { procedureName := s.name
          quantity := some 1
          individualPrice := jsOrNum (jsOrNum s.trialPrice s.eventPrice) (some 0)
          priceSource := if s.trialPrice.truthy then PriceSource.trial else PriceSource.event
          procedureId := none
          branchCategory := none })
    else []
  let items := if items0.length = 0 then parsePackageItems raw.name else items0
  let descText := joinSep " / " raw.description
  let finalMemo :=
    if 0 < raw.description.length then
      (if raw.memo ≠ "" then raw.memo ++ "; " ++ descText else descText)
    else raw.memo
  { name := raw.name
    packagePrice := raw.packagePrice
    memo := if finalMemo = "" then none else some finalMemo
    items := items }

/-- The strip `replace(/^■\s*/, '')`. -/
def stripLeadSquare : List Char → List Char
  | '■' :: rest => rest.dropWhile isWsChar
  | l => l

/-- The strip `replace(/^[●•·\-*■]\s*/, '')`. -/
def stripLeadBullet : List Char → List Char
  | [] => []
  | c :: rest =>
    if c == '●' || c == '•' || c == '·' || c == '-' || c == '*' || c == '■' then
      rest.dropWhile isWsChar
    else c :: rest

/-- `parseEnhancedFormat(lines)`: `ㄴ` lines add sub-items to the open
package, `■` lines finalize the open package and (when non-empty after
the marker) open a new one — when the remainder is empty the previous
`current` reference is kept, exactly as in the source — and any other
line is a description line of the open package. -/
def parseEnhancedFormat (lines : List String) : List Package :=
  let step := fun (st : List Package × Option RawPackage) (line : String) =>
    if charsLead "ㄴ".data line.data then
      match st.2 with
      | some cur => (st.1, some { cur with subItems := cur.subItems ++ parseSubItemLine line })
      | none => st
    else if charsLead "■".data line.data then
      let packages' :=
        match st.2 with
        | some cur => st.1 ++ [finalizeEnhancedPackage cur]
        | none => st.1
      let cleaned := jsTrim (String.mk (stripLeadSquare line.data))
      if cleaned ≠ "" then (packages', some (parseEnhancedMainLine cleaned))
      else (packages', st.2)
    else
      match st.2 with
      | some cur => (st.1, some { cur with description := cur.description ++ [line] })
      | none => st
  let res := lines.foldl step ([], none)
  match res.2 with
  | some cur => res.1 ++ [finalizeEnhancedPackage cur]
  | none => res.1

/-- `parseSimpleFormat(lines)`: one package per line; strip a leading
bullet, take a trailing `원`-price if present, drop lines that leave an
empty name. -/
def parseSimpleFormat (lines : List String) : List Package :=
  lines.foldl (fun packages line =>
    let cleaned := stripLeadBullet line.data
    if cleaned.isEmpty then packages
    else
      match scanEndWon [] cleaned with
      | none =>
        packages ++ [{ name := String.mk (jsTrimChars cleaned)
                       packagePrice := some 0
                       memo := none
                       items := parsePackageItems (String.mk (jsTrimChars cleaned)) }]
      | some (before, run) =>
        let name := jsTrimChars before
        let price : ℚ := qOfNat (digitsToNat (run.filter (fun c => c != ',')))
        if name.isEmpty then packages
        else
          packages ++ [{ name := String.mk name
                         packagePrice := some price
                         memo := none
                         items := parsePackageItems (String.mk name) }]) []

/-- `parsePackageText(text)`: trim and drop blank lines; any `■`/`ㄴ`
line selects the enhanced grammar, otherwise the simple grammar. -/
def parsePackageText (text : String) : List Package :=
  if jsTrim text = "" then []
  else
    let lines := ((splitOnChar '\n' text.data).map
      (fun l => String.mk (jsTrimChars l))).filter (fun l => l ≠ "")
    let hasEnhanced := lines.any
      (fun l => charsLead "■".data l.data || charsLead "ㄴ".data l.data)
    if hasEnhanced then parseEnhancedFormat lines else parseSimpleFormat lines

example : parsePackageText "●슈링크300+인모드fx 얼전 690,000원"
    = [{ name := "슈링크300+인모드fx 얼전"
         packagePrice := some 690000
         memo := none
         items := [
           { procedureName := "슈링크300", quantity := some 1, individualPrice := some 0,
             priceSource := .manual, procedureId := none, branchCategory := none },
           { procedureName := "인모드fx 얼전", quantity := some 1, individualPrice := some 0,
             priceSource := .manual, procedureId := none, branchCategory := none }] }] := by
  decide

example : parsePackageText "파워윤곽주사 3회 99,000원"
    = [{ name := "파워윤곽주사 3회"
         packagePrice := some 99000
         memo := none
         items := [
           { procedureName := "파워윤곽주사", quantity := some 3, individualPrice := some 0,
             priceSource := .manual, procedureId := none, branchCategory := none }] }] := by
  decide

/-- **C8**. Scenario C: the enhanced two-line input yields exactly one
package with memo `"부가세별도"` and exactly one item
`{procedureName: "시술A", individualPrice: 55000, priceSource: 'trial'}`
(the sub-item's trial price 5.5만원 wins over its event price when both
are present). -/
theorem C8_scenarioC :
    parsePackageText "■테스트 패키지 (부가세별도)\nㄴ시술A: 1체 5.5만원 / 이벤트 12.9만원"
      = [{ name := "테스트 패키지"
           packagePrice := some 0
           memo := some "부가세별도"
           items := [
             { procedureName := "시술A", quantity := some 1, individualPrice := some 55000,
               priceSource := .trial, procedureId := none, branchCategory := none }] }] := by
  decide

/-- **C9** (code bug, evaluation). The simple-grammar line
`"파워윤곽주사 0회"` matches the quantity suffix `/\s+(\d+)회\s*$/` with
digits `"0"`, so the produced `PackageItem` has `quantity = 0`,
contradicting the data-model invariant `quantity: integer ≥ 1` (the
default of 1 applies only when the suffix is absent; an explicit `0회` is
passed through unclamped). -/
theorem C9_code_bug_eval :
    parsePackageText "파워윤곽주사 0회"
      = [{ name := "파워윤곽주사 0회"
           packagePrice := some 0
           memo := none
           items := [
             { procedureName := "파워윤곽주사", quantity := some 0, individualPrice := some 0,
               priceSource := .manual, procedureId := none, branchCategory := none }] }] := by
  decide

/-- **C10**. A `■` main line whose only trailing price-like token is a
bare number below 1000 (no `만`): the trailing-`원` branch of
`parseEnhancedMainLine` requires the value to be at least 1000, the
mid-line branches need 4 digits or a `만`, so `packagePrice` stays 0 and
the token remains part of the name. -/
theorem C10_bare_number_threshold :
    parsePackageText "■패키지 500원"
      = [{ name := "패키지 500원"
           packagePrice := some 0
           memo := none
           items := [
             { procedureName := "패키지 500원", quantity := some 1, individualPrice := some 0,
               priceSource := .manual, procedureId := none, branchCategory := none }] }] := by
  decide

/-! ## `packagePricing.js` — procedure/branch price matching -/

/-- Is `sub` a contiguous substring of `s`? (JS `s.includes(sub)`;
arguments: haystack first). -/
def charsContain (sub : List Char) : List Char → Bool
  | [] => sub.isEmpty
  | c :: t => charsLead sub (c :: t) || charsContain sub t

/-- JS `s.includes(sub)`. -/
def strIncludes (s sub : String) : Bool := charsContain sub.data s.data

/-- JS `s.replace(/\s+/g, '')`. -/
def removeWsStr (s : String) : String := String.mk (s.data.filter (fun c => !isWsChar c))

/-- JS `s.toLowerCase()` (ASCII case mapping; Korean characters have no
case and are unaffected). -/
def toLowerStr (s : String) : String := String.mk (s.data.map Char.toLower)

/-- A procedure-library entry (`{id, name, trialPrice, eventPrice}`). -/
structure Procedure where
  id : ℚ
  name : String
  trialPrice : JsNum
  eventPrice : JsNum
deriving DecidableEq

/-- A branch price-sheet entry
(`{no, category, name, standardPrice, taxable}`). -/
structure BranchProcedure where
  no : ℚ
  category : String
  name : String
  standardPrice : JsNum
  taxable : Bool
deriving DecidableEq

/-- The single-pass match predicate of `matchProcedurePrices`: both names
non-empty and (containment in either direction, or whitespace-stripped
equality — note: no lower-casing and no tier order here). -/
def procMatchPred (itemName : String) (p : Procedure) : Bool :=
  p.name ≠ "" && itemName ≠ "" &&
  (strIncludes p.name itemName || strIncludes itemName p.name ||
   removeWsStr p.name == removeWsStr itemName)

/-- The per-item body of `matchProcedurePrices`: items already priced by
sub-item parsing (`individualPrice > 0` with source `trial`/`event`) are
skipped; otherwise the first matching procedure fills
`procedureId`, `individualPrice = eventPrice || trialPrice || 0` and
`priceSource = eventPrice ? 'event' : 'trial'`. -/
def matchProcItem (procedures : List Procedure) (item : PackageItem) : PackageItem :=
  if item.individualPrice.gtZero &&
      (item.priceSource == PriceSource.trial || item.priceSource == PriceSource.event) then
    item
  else
    match procedures.find? (procMatchPred item.procedureName) with
    | some m =>
      { item with
        procedureId := some m.id
        individualPrice := jsOrNum (jsOrNum m.eventPrice m.trialPrice) (some 0)
        priceSource := if m.eventPrice.truthy then PriceSource.event else PriceSource.trial }
    | none => item

/-- `matchProcedurePrices(packages, procedures)`. -/
def matchProcedurePrices (packages : List Package) (procedures : List Procedure) :
    List Package :=
  if procedures.length = 0 then packages
  else packages.map (fun pkg => { pkg with items := pkg.items.map (matchProcItem procedures) })

/-- JS `name.split(/\s+/)`, as used for token matching: splitting at
every whitespace character also yields empty segments between consecutive
whitespace (where the JS split yields none), but every such segment is
removed by the `length > 1` filter that always follows. -/
def splitWsAux : List Char → List (List Char)
  | [] => [[]]
  | c :: rest =>
    let r := splitWsAux rest
    if isWsChar c then [] :: r
    else
      match r with
      | h :: t => (c :: h) :: t
      | [] => [[c]]

/-- `findBestBranchMatch(name, procedures)`: four tiers in strict order —
exact equality, whitespace-stripped lower-cased equality, containment in
either direction after the same normalization, and all-tokens containment
(only attempted with at least two tokens of length above 1). -/
def findBestBranchMatch (name : String) (procedures : List BranchProcedure) :
    Option BranchProcedure :=
  if name = "" then none
  else
    let normalized := toLowerStr (removeWsStr name)
    match procedures.find? (fun p => p.name == name) with
    | some m => some m
    | none =>
      match procedures.find? (fun p => toLowerStr (removeWsStr p.name) == normalized) with
      | some m => some m
      | none =>
        match procedures.find? (fun p =>
            strIncludes (toLowerStr (removeWsStr p.name)) normalized ||
            strIncludes normalized (toLowerStr (removeWsStr p.name))) with
        | some m => some m
        | none =>
          let tokens := (splitWsAux name.data).filter (fun t => 1 < t.length)
          if 1 < tokens.length then
            match procedures.find? (fun p =>
                tokens.all (fun t =>
                  strIncludes (toLowerStr (removeWsStr p.name)) (toLowerStr (String.mk t)))) with
            | some m => some m
            | none => none
          else none

/-- The per-item body of `matchBranchPrices`: any already-priced item
whose source is not `branch` is skipped. -/
def matchBranchItem (branchProcedures : List BranchProcedure) (item : PackageItem) :
    PackageItem :=
  if item.individualPrice.gtZero && item.priceSource != PriceSource.branch then item
  else
    match findBestBranchMatch item.procedureName branchProcedures with
    | some m =>
      { item with
        individualPrice := m.standardPrice
        priceSource := PriceSource.branch
        branchCategory := some m.category }
    | none => item

/-- `matchBranchPrices(packages, branchProcedures)`. -/
def matchBranchPrices (packages : List Package) (branchProcedures : List BranchProcedure) :
    List Package :=
  if branchProcedures.length = 0 then packages
  else
    packages.map (fun pkg =>
      { pkg with items := pkg.items.map (matchBranchItem branchProcedures) })

theorem matchProcItem_idem (procedures : List Procedure) (item : PackageItem) :
    matchProcItem procedures (matchProcItem procedures item)
      = matchProcItem procedures item := by
  obtain ⟨nm, qty, ip, src, pid, bc⟩ := item
  by_cases hskip : (JsNum.gtZero ip &&
      (src == PriceSource.trial || src == PriceSource.event)) = true
  · have h1 : matchProcItem procedures ⟨nm, qty, ip, src, pid, bc⟩ = ⟨nm, qty, ip, src, pid, bc⟩ := by
      rw [matchProcItem, if_pos hskip]
    rw [h1, h1]
  · cases hfind : procedures.find? (procMatchPred nm) with
    | none =>
      have h1 : matchProcItem procedures ⟨nm, qty, ip, src, pid, bc⟩ = ⟨nm, qty, ip, src, pid, bc⟩ := by
        rw [matchProcItem, if_neg hskip]
        simp only []
        rw [hfind]
      rw [h1, h1]
    | some m =>
      have h1 : matchProcItem procedures ⟨nm, qty, ip, src, pid, bc⟩
          = ⟨nm, qty, jsOrNum (jsOrNum m.eventPrice m.trialPrice) (some 0),
              if m.eventPrice.truthy then PriceSource.event else PriceSource.trial,
              some m.id, bc⟩ := by
        rw [matchProcItem, if_neg hskip]
        simp only []
        rw [hfind]
      rw [h1]
      set v := jsOrNum (jsOrNum m.eventPrice m.trialPrice) (some 0) with hv
      set s2 := if m.eventPrice.truthy then PriceSource.event else PriceSource.trial with hs2
      have hsrc : (s2 == PriceSource.trial || s2 == PriceSource.event) = true := by
        rw [hs2]
        by_cases he : m.eventPrice.truthy = true
        · simp [he]
        · simp [he]
      by_cases hgt : JsNum.gtZero v = true
      · rw [matchProcItem, if_pos (by simp [hgt, hsrc])]
      · rw [matchProcItem, if_neg (by simp [hgt])]
        simp only []
        rw [hfind]

/-- **C5**. `matchProcedurePrices` is idempotent: a second application to
an already-matched package list changes nothing.  A matched item either
carries `individualPrice > 0` with source `trial`/`event` (and is skipped
by the second pass) or re-matches the same procedure and is rewritten to
the identical field values. -/
theorem C5_idempotent (packages : List Package) (procedures : List Procedure) :
    matchProcedurePrices (matchProcedurePrices packages procedures) procedures
      = matchProcedurePrices packages procedures := by
  by_cases hp : procedures.length = 0
  · rw [matchProcedurePrices, if_pos hp, matchProcedurePrices, if_pos hp]
  · rw [matchProcedurePrices, if_neg hp]
    conv_rhs => rw [matchProcedurePrices, if_neg hp]
    conv_lhs => rw [matchProcedurePrices, if_neg hp]
    rw [List.map_map]
    apply List.map_congr_left
    intro pkg _
    simp only [Function.comp]
    obtain ⟨nm, pp, memo, items⟩ := pkg
    simp only []
    rw [List.map_map]
    congr 1
    apply List.map_congr_left
    intro it _
    exact matchProcItem_idem procedures it

/-- **C4** (counterexample). The tiered priority fails for
`matchProcedurePrices`: with candidates `[나나, 나]` and item name `나`,
the single-pass disjunctive `find` returns the first candidate `나나`
(bidirectional containment, `procedureId = 1`, event price 100000) even
though the second candidate `나` matches by exact string equality — an
exact-equality candidate is **not** preferred over an earlier
containment-only candidate. -/
theorem C4_counterexample :
    ({ id := 2, name := "나", trialPrice := some 0,
       eventPrice := some 200000 } : Procedure).name = "나" ∧
    matchProcedurePrices
        [{ name := "나", packagePrice := some 0, memo := none,
           items := [{ procedureName := "나", quantity := some 1, individualPrice := some 0,
                       priceSource := .manual, procedureId := none, branchCategory := none }] }]
        [{ id := 1, name := "나나", trialPrice := some 0, eventPrice := some 100000 },
         { id := 2, name := "나", trialPrice := some 0, eventPrice := some 200000 }]
      = [{ name := "나", packagePrice := some 0, memo := none,
           items := [{ procedureName := "나", quantity := some 1,
                       individualPrice := some 100000, priceSource := .event,
                       procedureId := some 1, branchCategory := none }] }] := by
  decide

/-- **C4** (amended). `findBestBranchMatch` (used by `matchBranchPrices`)
does apply the four tiers in strict priority order with stable
first-encountered tie-breaking; in particular, for a non-empty query for
which some candidate is exactly equal, the result is the first
exactly-equal candidate, wherever it appears in the list.
(`matchProcedurePrices` instead uses a single-pass disjunctive match —
containment in either direction or whitespace-stripped equality — so an
earlier containment-only candidate wins over a later exact one; see the
counterexample.) -/
theorem C4_amended (name : String) (ps : List BranchProcedure)
    (hname : name ≠ "") (hex : ∃ p ∈ ps, p.name = name) :
    findBestBranchMatch name ps = ps.find? (fun p => p.name == name) ∧
    (ps.find? (fun p => p.name == name)).isSome := by
  have hsome : (ps.find? (fun p => p.name == name)).isSome = true := by
    rw [List.find?_isSome]
    obtain ⟨p, hp, he⟩ := hex
    exact ⟨p, hp, by simp [he]⟩
  refine ⟨?_, hsome⟩
  rw [findBestBranchMatch, if_neg hname]
  simp only []
  cases hfind : ps.find? (fun p => p.name == name) with
  | some m => rfl
  | none => rw [hfind] at hsome; simp at hsome

/-- The branch price sheet used to witness `C4_amended`: the first entry
matches the query `가나` only by containment, the second exactly. -/
def bpSheetW : List BranchProcedure :=
  [{ no := 1, category := "catA", name := "가나다", standardPrice := some 1000, taxable := true },
   { no := 2, category := "catB", name := "가나", standardPrice := some 2000, taxable := true }]

theorem C4_amended_witness :
    ("가나" : String) ≠ "" ∧
    (findBestBranchMatch "가나" bpSheetW = bpSheetW.find? (fun p => p.name == "가나") ∧
     (bpSheetW.find? (fun p => p.name == "가나")).isSome) :=
  ⟨by decide,
   C4_amended "가나" bpSheetW (by decide)
     ⟨{ no := 2, category := "catB", name := "가나", standardPrice := some 2000, taxable := true },
      by decide, rfl⟩⟩

example : findBestBranchMatch "가나" bpSheetW
    = some { no := 2, category := "catB", name := "가나", standardPrice := some 2000,
             taxable := true } := by decide

/-! ## `packagePricing.js` — package summary -/

/-- One `perItemBreakdown` entry. -/
structure BreakdownEntry where
  name : String
  quantity : ℚ
  originalPrice : ℚ
  allocatedPrice : ℚ
  savingsPercent : ℚ
deriving DecidableEq

/-- The summary returned by `computePackageSummary`. -/
structure PackageSummary where
  totalRegularPrice : ℚ
  packagePrice : ℚ
  savingsAmount : ℚ
  savingsPercent : ℚ
  perItemBreakdown : List BreakdownEntry
deriving DecidableEq

/-- One item's regular-price contribution:
`(Number(individualPrice) || 0) * (Number(quantity) || 1)`. -/
def itemTotal (it : PackageItem) : ℚ := qMul (numOr0 it.individualPrice) (numOr1 it.quantity)

/-- `computePackageSummary(pkg)`.  The `!pkg || !pkg.items` guard of the
source collapses to the empty-items branch here (a `Package` always has
an items list in the model). -/
def computePackageSummary (pkg : Package) : PackageSummary :=
  if pkg.items.length = 0 then
    { totalRegularPrice := 0
      packagePrice := numOr0 pkg.packagePrice
      savingsAmount := 0
      savingsPercent := 0
      perItemBreakdown := [] }
  else
    let totalRegular := (pkg.items.map itemTotal).foldl qAdd 0
    let packagePrice := numOr0 pkg.packagePrice
    let savingsAmount := qSub totalRegular packagePrice
    let savingsPercent :=
      if 0 < totalRegular then
        qDiv (qOfInt (jsRound (qMul (qDiv savingsAmount totalRegular) 1000))) 10
      else 0
    let perItemBreakdown := pkg.items.map (fun it =>
      let t := itemTotal it
      let proportion := if 0 < totalRegular then qDiv t totalRegular else 0
      let allocatedPrice := qOfInt (jsRound (qMul packagePrice proportion))
      { name := it.procedureName
        quantity := numOr1 it.quantity
        originalPrice := t
        allocatedPrice := allocatedPrice
        savingsPercent :=
          if 0 < t then
            qDiv (qOfInt (jsRound (qMul (qSub 1 (qDiv allocatedPrice t)) 1000))) 10
          else 0 })
    { totalRegularPrice := totalRegular
      packagePrice := packagePrice
      savingsAmount := savingsAmount
      savingsPercent := savingsPercent
      perItemBreakdown := perItemBreakdown }

/-- `calcPackagePriceFromDiscount(pkg, targetDiscountPercent, roundUnit)`. -/
def calcPackagePriceFromDiscount (pkg : Package) (targetDiscountPercent : ℚ)
    (roundUnit : ℚ) : ℚ :=
  let totalRegular := (pkg.items.map itemTotal).foldl qAdd 0
  if totalRegular ≤ 0 then 0
  else roundPrice (qMul totalRegular (qSub 1 (qDiv targetDiscountPercent 100))) roundUnit

theorem foldl_qAdd_eq_sum (l : List ℚ) (a : ℚ) : l.foldl qAdd a = a + l.sum := by
  induction l generalizing a with
  | nil => simp
  | cons h t ih => rw [List.foldl_cons, ih, qAdd_eq, List.sum_cons]; ring

theorem jsRound_abs_le (q : ℚ) : |((jsRound q : ℤ) : ℚ) - q| ≤ 1/2 := by
  rw [jsRound_eq_floor, abs_le]
  constructor
  · have h := Int.lt_floor_add_one (q + 1/2)
    push_cast at h
    linarith
  · have h := Int.floor_le (q + 1/2)
    linarith

theorem sum_map_mul_left_rat (l : List ℚ) (r : ℚ) :
    (l.map (fun x => r * x)).sum = r * l.sum := by
  induction l with
  | nil => simp
  | cons h t ih => simp [ih, mul_add]

theorem abs_sum_jsRound_sub_sum (l : List ℚ) :
    |((l.map (fun x => ((jsRound x : ℤ) : ℚ))).sum - l.sum)| ≤ (l.length : ℚ) * (1/2) := by
  induction l with
  | nil => simp
  | cons x t ih =>
    simp only [List.map_cons, List.sum_cons, List.length_cons]
    have hx := jsRound_abs_le x
    have step : ((jsRound x : ℤ) : ℚ) + (t.map (fun x => ((jsRound x : ℤ) : ℚ))).sum
        - (x + t.sum)
        = (((jsRound x : ℤ) : ℚ) - x)
          + ((t.map (fun x => ((jsRound x : ℤ) : ℚ))).sum - t.sum) := by ring
    rw [step]
    calc |(((jsRound x : ℤ) : ℚ) - x)
            + ((t.map (fun x => ((jsRound x : ℤ) : ℚ))).sum - t.sum)|
        ≤ |(((jsRound x : ℤ) : ℚ) - x)|
            + |((t.map (fun x => ((jsRound x : ℤ) : ℚ))).sum - t.sum)| := abs_add _ _
      _ ≤ 1/2 + (t.length : ℚ) * (1/2) := add_le_add hx ih
      _ = ((t.length : ℚ) + 1) * (1/2) := by ring
      _ = (((t.length + 1 : ℕ)) : ℚ) * (1/2) := by push_cast; ring

theorem computePackageSummary_spec (pkg : Package) (hlen : ¬ pkg.items.length = 0) :
    (computePackageSummary pkg).totalRegularPrice = (pkg.items.map itemTotal).sum ∧
    (computePackageSummary pkg).packagePrice = numOr0 pkg.packagePrice ∧
    (computePackageSummary pkg).perItemBreakdown.map (fun b => b.allocatedPrice)
      = pkg.items.map (fun it =>
          ((jsRound (numOr0 pkg.packagePrice *
            (if 0 < (pkg.items.map itemTotal).sum
             then itemTotal it / (pkg.items.map itemTotal).sum else 0)) : ℤ) : ℚ)) := by
  rw [computePackageSummary, if_neg hlen]
  refine ⟨?_, rfl, ?_⟩
  · simp [foldl_qAdd_eq_sum]
  · rw [List.map_map]
    apply List.map_congr_left
    intro it _
    simp [Function.comp, qMul_eq, qDiv_eq, qOfInt_eq, foldl_qAdd_eq_sum]

/-- **C7** (amended). Whenever `totalRegularPrice > 0`, the allocated
prices of the breakdown sum to within `items.length` won of
`packagePrice`: each entry rounds `packagePrice × (itemTotal/total)` and
the exact values sum to `packagePrice`, so the drift is at most half a
won per item.  (When `totalRegularPrice ≤ 0` every allocation is 0 and no
such bound holds — see the counterexample.) -/
theorem C7_amended (pkg : Package)
    (h : 0 < (computePackageSummary pkg).totalRegularPrice) :
    |(((computePackageSummary pkg).perItemBreakdown.map
        (fun b => b.allocatedPrice)).sum - (computePackageSummary pkg).packagePrice)|
      ≤ (pkg.items.length : ℚ) := by
  by_cases hlen : pkg.items.length = 0
  · exfalso
    have hz : (computePackageSummary pkg).totalRegularPrice = 0 := by
      rw [computePackageSummary, if_pos hlen]
    rw [hz] at h
    exact lt_irrefl 0 h
  · obtain ⟨hT, hP, hB⟩ := computePackageSummary_spec pkg hlen
    rw [hB, hP]
    have hpos : 0 < (pkg.items.map itemTotal).sum := by rw [hT] at h; exact h
    have hB2 : pkg.items.map (fun it =>
          ((jsRound (numOr0 pkg.packagePrice *
            (if 0 < (pkg.items.map itemTotal).sum
             then itemTotal it / (pkg.items.map itemTotal).sum else 0)) : ℤ) : ℚ))
        = (pkg.items.map (fun it =>
            numOr0 pkg.packagePrice
              * (itemTotal it / (pkg.items.map itemTotal).sum))).map
          (fun x => ((jsRound x : ℤ) : ℚ)) := by
      rw [List.map_map]
      apply List.map_congr_left
      intro it _
      simp [Function.comp, if_pos hpos]
    rw [hB2]
    have hsum : (pkg.items.map (fun it =>
        numOr0 pkg.packagePrice * (itemTotal it / (pkg.items.map itemTotal).sum))).sum
        = numOr0 pkg.packagePrice := by
      have hmm : pkg.items.map (fun it =>
            numOr0 pkg.packagePrice * (itemTotal it / (pkg.items.map itemTotal).sum))
          = (pkg.items.map itemTotal).map (fun t =>
              (numOr0 pkg.packagePrice / (pkg.items.map itemTotal).sum) * t) := by
        rw [List.map_map]
        apply List.map_congr_left
        intro it _
        simp only [Function.comp]
        ring
      rw [hmm, sum_map_mul_left_rat, div_mul_cancel₀]
      exact ne_of_gt hpos
    have hb := abs_sum_jsRound_sub_sum (pkg.items.map (fun it =>
        numOr0 pkg.packagePrice * (itemTotal it / (pkg.items.map itemTotal).sum)))
    rw [hsum, List.length_map] at hb
    have hge : (0:ℚ) ≤ (pkg.items.length : ℚ) := by positivity
    linarith

/-- The package witnessing `C7_amended`: three items with prices 10000,
20000, 30000 and bundle price 50000. -/
def pkgC7W : Package :=
  { name := "패키지"
    packagePrice := some 50000
    memo := none
    items := [
      { procedureName := "a", quantity := some 1, individualPrice := some 10000,
        priceSource := .manual, procedureId := none, branchCategory := none },
      { procedureName := "b", quantity := some 1, individualPrice := some 20000,
        priceSource := .manual, procedureId := none, branchCategory := none },
      { procedureName := "c", quantity := some 1, individualPrice := some 30000,
        priceSource := .manual, procedureId := none, branchCategory := none }] }

theorem C7_amended_witness :
    0 < (computePackageSummary pkgC7W).totalRegularPrice ∧
    |(((computePackageSummary pkgC7W).perItemBreakdown.map
        (fun b => b.allocatedPrice)).sum - (computePackageSummary pkgC7W).packagePrice)|
      ≤ (pkgC7W.items.length : ℚ) :=
  ⟨by decide, C7_amended pkgC7W (by decide)⟩

/-- The package with `totalRegularPrice = 0` but positive `packagePrice`
used in the C7 counterexample. -/
def pkgC7Zero : Package :=
  { name := "패키지"
    packagePrice := some 100000
    memo := none
    items := [
      { procedureName := "x", quantity := some 1, individualPrice := some 0,
        priceSource := .manual, procedureId := none, branchCategory := none }] }

/-- **C7** (counterexample). For a package whose only item has price 0
and whose `packagePrice` is 100000, `totalRegularPrice` is 0, every
`allocatedPrice` is `round(100000 × 0) = 0`, and the allocation sum
misses `packagePrice` by 100000 won — far beyond the claimed
`items.length = 1` bound. -/
theorem C7_counterexample :
    ¬ (|(((computePackageSummary pkgC7Zero).perItemBreakdown.map
        (fun b => b.allocatedPrice)).sum - (computePackageSummary pkgC7Zero).packagePrice)|
      ≤ (pkgC7Zero.items.length : ℚ)) := by
  intro hc
  have h1 : (computePackageSummary pkgC7Zero).perItemBreakdown.map
      (fun b => b.allocatedPrice) = [0] := by decide
  have h2 : (computePackageSummary pkgC7Zero).packagePrice = 100000 := by decide
  have h3 : (pkgC7Zero.items.length : ℚ) = 1 := by norm_num [pkgC7Zero]
  rw [h1, h2, h3] at hc
  simp at hc
